import Mathlib

/-
Verification of the shift-time reconciler and the pairwise overlap engine of
the hockey-api repository, file nhl/json_shifts.py.

The reconciler (get_game_shifts) works row by row: every pandas mask and
apply in lines 52-98 only reads the row it writes, so the table computation
is the map of a per-row function.  Raw rows carry period-local mm:ss time
strings that may be empty; the model stores the parsed minute and second
components as Option (Nat x Nat), with none standing for the empty string.

The overlap engine (get_overlapping_shifts) is modelled over a list of
reconciled shifts; the data frame index of a row is its position in the
list.  A Python exception is modelled as the result none.
-/

namespace HockeyApi

/-- A raw shift row as fed to the reconciler after JSON normalization,
column selection and dropna.  Time fields hold the minute and second
components of a well formed mm:ss string; none stands for the empty string
sentinel used by the provider for missing times. -/
structure RawShift where
  gameId : Int
  playerId : Int
  teamId : Int
  period : Int
  startTime : Option (Nat × Nat)
  endTime : Option (Nat × Nat)
  duration : Nat × Nat
deriving Repr, DecidableEq

/-- A reconciled shift row: times in game-elapsed integer seconds. -/
structure ReconShift where
  gameId : Int
  playerId : Int
  teamId : Int
  period : Int
  startTime : Int
  endTime : Int
  duration : Int
deriving Repr, DecidableEq

/-- Lines 52-66: when endTime is missing, the period is 3 and the minute
component of startTime is at least 18, endTime becomes the period boundary
20:00; otherwise it is left as it was. -/
def endTimeAfterRegulationFix (r : RawShift) (sm : Nat) : Option (Nat × Nat) :=
  match r.endTime with
  | some e => some e
  | none => if r.period = 3 ∧ 18 ≤ sm then some (20, 0) else none

/-- Lines 74-84: the period-local end seconds after the regulation fix and
the missing-end backfill.  A still missing end time is rebuilt componentwise
as the string (sm + dm):(ss + ds) and later parsed as
minutes * 60 + seconds, which the model applies directly. -/
def localEndSecs (r : RawShift) (sm ss : Nat) : Int :=
  match endTimeAfterRegulationFix r sm with
  | some (em, es) => em * 60 + es
  | none => ((sm + r.duration.1) * 60 + (ss + r.duration.2) : Nat)

/-- One row of get_game_shifts, lines 52-98.  A row whose startTime is the
empty string makes the Python code raise ValueError while evaluating
int(x[0:2]) inside the final-two-minutes mask of line 59, before any
backfill runs: the model returns none for such a row.  Otherwise the row is
converted to seconds, shifted by 1200 * (period - 1), corrected by 1200 when
the end lands before the start, and the duration is recomputed. -/
def reconcileRow (r : RawShift) : Option ReconShift :=
  match r.startTime with
  | none => none
  | some (sm, ss) =>
    let startSecs : Int := sm * 60 + ss
    let endSecs : Int := localEndSecs r sm ss
    let startElapsed : Int := 1200 * (r.period - 1) + startSecs
    let endElapsed0 : Int := 1200 * (r.period - 1) + endSecs
    let endElapsed : Int :=
      if endElapsed0 < startElapsed then endElapsed0 + 1200 else endElapsed0
    some ⟨r.gameId, r.playerId, r.teamId, r.period, startElapsed, endElapsed,
          endElapsed - startElapsed⟩

/-- The declared column set of the reconciled shift table, lines 36-37. -/
def shiftColumns : List String :=
  ["gameId", "playerId", "startTime", "period", "endTime", "duration",
   "teamId", "teamName"]

/-- Table-level reconciler, get_game_shifts lines 34-100.  The input rows
are the normalized JSON rows; a goal event row, removed by dropna, is
modelled as none.  With no usable row left the function returns an empty
table that still carries the declared column set.  Otherwise every row is
reconciled; an exception in any row aborts the whole call. -/
def get_game_shifts (rows : List (Option RawShift)) :
    Option (List String × List ReconShift) :=
  let valid := rows.filterMap id
  if valid.isEmpty then some (shiftColumns, [])
  else (valid.mapM reconcileRow).map fun rs => (shiftColumns, rs)

/-- A reconciled shift as read by the overlap engine. -/
structure Shift where
  gameId : Int
  playerId : Int
  teamId : Int
  startTime : Int
  endTime : Int
deriving Repr, DecidableEq

/-- One output record of the overlap engine after the wide-to-long melt. -/
structure OverlapRec where
  gameId : Int
  playerId : Int
  playerId2 : Int
  seconds : Int
deriving Repr, DecidableEq

/-- Lines 188-193: the time test.  The candidate shift b overlaps the source
shift a iff the start of b lies in [a.start, a.end), or b starts before a
and ends after the start of a. -/
def overlapPredB (a b : Shift) : Bool :=
  (decide (a.startTime ≤ b.startTime) && decide (b.startTime < a.endTime)) ||
  (decide (b.startTime < a.startTime) && decide (a.startTime < b.endTime))

/-- Lines 202-220: the overlap magnitude through Python ranges.  When the
candidate range is empty the value 0 is recorded; otherwise the code indexes
shift_range[0], which raises IndexError when the source range is empty,
modelled as none; otherwise the overlap is the length of
range(max(a0, b0), min(a1 - 1, b1 - 1) + 1). -/
def computeOverlap (a b : Shift) : Option Int :=
  if b.endTime ≤ b.startTime then some 0
  else if a.endTime ≤ a.startTime then none
  else some (max 0 (min (a.endTime - 1) (b.endTime - 1) + 1 -
                    max a.startTime b.startTime))

/-- Lexicographic order on (playerId, teamId) keys; pandas groupby iterates
the groups in this ascending key order. -/
def keyLe (k1 k2 : Int × Int) : Prop :=
  k1.1 < k2.1 ∨ (k1.1 = k2.1 ∧ k1.2 ≤ k2.2)

instance : DecidableRel keyLe := fun k1 k2 => by
  unfold keyLe; infer_instance

/-- The groupby keys of line 175: the distinct (playerId, teamId) pairs of
the table in ascending order. -/
def gameKeys (L : List Shift) : List (Int × Int) :=
  List.insertionSort keyLe ((L.map fun s => (s.playerId, s.teamId)).dedup)

/-- The key of one row. -/
def keyOf (s : Shift) : Int × Int := (s.playerId, s.teamId)

/-- The rows of the single-game table tagged with their positional index,
standing for the data frame index. -/
def indexedRows (L : List Shift) : List (Nat × Shift) := L.enum

/-- Lines 179-182: all rows outside the current group whose player has not
been fully processed yet. -/
def candidateRows (L : List Shift) (checked : List Int) (k : Int × Int) :
    List (Nat × Shift) :=
  (indexedRows L).filter fun r =>
    !(decide (r.2.playerId = k.1) && decide (r.2.teamId = k.2)) &&
      !(decide (r.2.playerId ∈ checked))

/-- Lines 185-196: the candidates on the same team whose times overlap the
source shift. -/
def overlapTargets (L : List Shift) (checked : List Int) (k : Int × Int)
    (s : Shift) : List (Nat × Shift) :=
  (candidateRows L checked k).filter fun r =>
    decide (r.2.teamId = k.2) && overlapPredB s r.2

/-- The rows of the current groupby group, in table order. -/
def groupRows (L : List Shift) (k : Int × Int) : List (Nat × Shift) :=
  (indexedRows L).filter fun r =>
    decide (r.2.playerId = k.1) && decide (r.2.teamId = k.2)

/-- Assignment into the per-shift Python dict keyed by the partner playerId,
line 212 and line 220: an existing key keeps its position and receives the
new value, a new key is appended. -/
def dictInsert (d : List (Int × Int)) (pid v : Int) : List (Int × Int) :=
  if d.any fun kv => kv.1 == pid then
    d.map fun kv => if kv.1 == pid then (pid, v) else kv
  else d ++ [(pid, v)]

/-- Lines 202-220: the loop over the overlapping target shifts, accumulating
the per-shift dict; none models the IndexError raised by computeOverlap on
an empty source range. -/
def buildDict (s : Shift) : List (Nat × Shift) → List (Int × Int) →
    Option (List (Int × Int))
  | [], d => some d
  | t :: ts, d =>
    match computeOverlap s t.2 with
    | some v => buildDict s ts (dictInsert d t.2.playerId v)
    | none => none

/-- The finished dict of one source shift. -/
def shiftOverlapDict (L : List Shift) (checked : List Int) (k : Int × Int)
    (s : Shift) : Option (List (Int × Int)) :=
  buildDict s (overlapTargets L checked k s) []

/-- Records contributed by the source shifts of one group, in shift order;
after the melt each dict entry becomes one long-format record carrying the
gameId and playerId of the source shift. -/
def keyRecordsAux (L : List Shift) (checked : List Int) (k : Int × Int) :
    List (Nat × Shift) → Option (List OverlapRec)
  | [] => some []
  | src :: rest =>
    match shiftOverlapDict L checked k src.2, keyRecordsAux L checked k rest with
    | some d, some rs =>
      some ((d.map fun kv => ⟨src.2.gameId, src.2.playerId, kv.1, kv.2⟩) ++ rs)
    | _, _ => none

/-- All records of one groupby group. -/
def keyRecords (L : List Shift) (checked : List Int) (k : Int × Int) :
    Option (List OverlapRec) :=
  keyRecordsAux L checked k (groupRows L k)

/-- Lines 175-242: the outer loop over the sorted player groups; after a
group is processed its playerId joins the checked list. -/
def recordsAux (L : List Shift) : List (Int × Int) → List Int →
    Option (List OverlapRec)
  | [], _ => some []
  | k :: ks, checked =>
    match keyRecords L checked k, recordsAux L ks (checked ++ [k.1]) with
    | some now, some rest => some (now ++ rest)
    | _, _ => none

/-- The overlap engine get_overlapping_shifts, lines 148-258: select the
rows of the requested game, then run the grouped overlap computation. -/
def get_overlapping_shifts (df : List Shift) (g : Int) :
    Option (List OverlapRec) :=
  let gameRows := df.filter fun s => decide (s.gameId = g)
  recordsAux gameRows (gameKeys gameRows) []

/-- The trace of index pairs (source row, candidate row) whose overlap the
engine computes while processing one group key. -/
def keyComparedPairs (L : List Shift) (checked : List Int) (k : Int × Int) :
    List (Nat × Nat) :=
  (groupRows L k).flatMap fun src =>
    (overlapTargets L checked k src.2).map fun t => (src.1, t.1)

/-- The comparison trace of the outer loop. -/
def comparedPairsAux (L : List Shift) : List (Int × Int) → List Int →
    List (Nat × Nat)
  | [], _ => []
  | k :: ks, checked =>
    keyComparedPairs L checked k ++ comparedPairsAux L ks (checked ++ [k.1])

/-- All comparisons the engine performs on the shift table of one game. -/
def comparedPairs (df : List Shift) (g : Int) : List (Nat × Nat) :=
  let gameRows := df.filter fun s => decide (s.gameId = g)
  comparedPairsAux gameRows (gameKeys gameRows) []

/-! Reconciler theorems -/

theorem localEndSecs_nonneg (r : RawShift) (sm ss : Nat) :
    0 ≤ localEndSecs r sm ss := by
  unfold localEndSecs
  split
  · positivity
  · positivity

/-- C4: every raw record the reconciler accepts, whose period-local start
and backfilled end lie in [0, 1200) seconds, reconciles to a row with
endTime at least startTime and duration equal to endTime minus startTime:
a wrapped end gets 1200 seconds added and the duration is recomputed
unconditionally from the final endpoints. -/
theorem C4_reconciled_interval_invariant (r : RawShift) (sm ss : Nat)
    (out : ReconShift) (hstart : r.startTime = some (sm, ss))
    (hs : (sm : Int) * 60 + ss < 1200)
    (he : localEndSecs r sm ss < 1200)
    (hout : reconcileRow r = some out) :
    out.startTime ≤ out.endTime ∧ out.duration = out.endTime - out.startTime := by
  have hnn := localEndSecs_nonneg r sm ss
  obtain ⟨gid, pid, tid, per, st, et, dur⟩ := r
  simp only at hstart
  subst hstart
  simp only [reconcileRow, Option.some.injEq] at hout
  subst hout
  constructor
  · dsimp only
    split_ifs <;> omega
  · dsimp only

/-- C4 witness: a period-2 shift from local 5:00 to local 4:30 wraps; the
reconciled row is [1500, 2670] with duration 1170. -/
theorem C4_witness :
    (⟨1, 8, 10, 2, 1500, 2670, 1170⟩ : ReconShift).startTime ≤
        (⟨1, 8, 10, 2, 1500, 2670, 1170⟩ : ReconShift).endTime ∧
      (⟨1, 8, 10, 2, 1500, 2670, 1170⟩ : ReconShift).duration =
        (⟨1, 8, 10, 2, 1500, 2670, 1170⟩ : ReconShift).endTime -
          (⟨1, 8, 10, 2, 1500, 2670, 1170⟩ : ReconShift).startTime :=
  C4_reconciled_interval_invariant ⟨1, 8, 10, 2, some (5, 0), some (4, 30), (0, 40)⟩
    5 0 _ rfl (by decide) (by decide) (by decide)

/-- C5 counterexample: the record with missing endTime, period 3, startTime
18:30 and duration 01:00 reconciles to game-elapsed startTime 3510 and
endTime 3600, because the elapsed offset of period 3 is
1200 * (3 - 1) = 2400; the values 2310 and 2400 stated by the claim are off
by one period. -/
theorem C5_counterexample :
    reconcileRow ⟨1, 8, 10, 3, some (18, 30), none, (1, 0)⟩ =
        some ⟨1, 8, 10, 3, 3510, 3600, 90⟩ ∧
      reconcileRow ⟨1, 8, 10, 3, some (18, 30), none, (1, 0)⟩ ≠
        some ⟨1, 8, 10, 3, 2310, 2400, 90⟩ :=
  ⟨by decide, by decide⟩

/-- C5 amended: with endTime missing, period equal to 3, start minute
component at least 18 and the start inside the period, the reconciler sets
the end to the period boundary 20:00, which is game-elapsed second 3600,
and recomputes the duration from the final endpoints; on the concrete
record of the claim this gives startTime 3510, endTime 3600, duration 90. -/
theorem C5_amended_regulation_end (r : RawShift) (sm ss : Nat)
    (out : ReconShift) (hstart : r.startTime = some (sm, ss))
    (hend : r.endTime = none) (hper : r.period = 3) (hm : 18 ≤ sm)
    (hloc : (sm : Int) * 60 + ss < 1200)
    (hout : reconcileRow r = some out) :
    out.endTime = 3600 ∧ out.duration = 3600 - out.startTime := by
  have hE : localEndSecs r sm ss = 1200 := by
    unfold localEndSecs endTimeAfterRegulationFix
    rw [hend]
    rw [if_pos ⟨hper, hm⟩]
    norm_num
  obtain ⟨gid, pid, tid, per, st, et, dur⟩ := r
  simp only at hstart hend hper
  subst hstart hper
  simp only [reconcileRow, Option.some.injEq] at hout
  subst hout
  rw [hE] at *
  constructor
  · dsimp only
    split_ifs <;> omega
  · dsimp only
    split_ifs <;> omega

/-- C5 amended witness: the concrete record of the claim. -/
theorem C5_amended_witness :
    (⟨1, 8, 10, 3, 3510, 3600, 90⟩ : ReconShift).endTime = 3600 ∧
      (⟨1, 8, 10, 3, 3510, 3600, 90⟩ : ReconShift).duration =
        3600 - (⟨1, 8, 10, 3, 3510, 3600, 90⟩ : ReconShift).startTime :=
  C5_amended_regulation_end ⟨1, 8, 10, 3, some (18, 30), none, (1, 0)⟩
    18 30 _ rfl rfl rfl (by decide) (by decide) (by decide)

/-- C7: a raw record whose startTime is the empty string makes
get_game_shifts raise ValueError at the final-two-minutes mask of line 59,
when int(x[0:2]) is evaluated on the empty string, before the documented
componentwise backfill startTime = endTime - duration of lines 69-71 can
run; the model returns none for such a record. -/
theorem C7_missing_start_crashes :
    reconcileRow ⟨1, 8, 10, 1, none, some (10, 0), (0, 30)⟩ = none := rfl

/-- C8: when every input row is a goal event, or there are no rows at all,
the reconciler returns the empty table carrying the full declared column
set instead of failing. -/
theorem C8_empty_game_returns_shaped_table (rows : List (Option RawShift))
    (h : rows.filterMap id = []) :
    get_game_shifts rows =
      some (["gameId", "playerId", "startTime", "period", "endTime",
             "duration", "teamId", "teamName"], []) := by
  simp [get_game_shifts, h, shiftColumns]

/-- C8 witness: a game whose rows are all goal events. -/
theorem C8_witness :
    get_game_shifts [none, none] =
      some (["gameId", "playerId", "startTime", "period", "endTime",
             "duration", "teamId", "teamName"], []) :=
  C8_empty_game_returns_shaped_table [none, none] rfl

/-! Overlap engine: membership lemmas -/

theorem mem_overlapTargets_iff (L : List Shift) (checked : List Int)
    (k : Int × Int) (s : Shift) (t : Nat × Shift) :
    t ∈ overlapTargets L checked k s ↔
      t ∈ indexedRows L ∧ ¬(t.2.playerId = k.1 ∧ t.2.teamId = k.2) ∧
        t.2.playerId ∉ checked ∧ t.2.teamId = k.2 ∧
        overlapPredB s t.2 = true := by
  simp only [overlapTargets, candidateRows, List.mem_filter, Bool.and_eq_true,
    Bool.not_eq_true', Bool.and_eq_false_iff, decide_eq_true_eq,
    decide_eq_false_iff_not]
  tauto

theorem mem_groupRows_iff (L : List Shift) (k : Int × Int) (t : Nat × Shift) :
    t ∈ groupRows L k ↔
      t ∈ indexedRows L ∧ t.2.playerId = k.1 ∧ t.2.teamId = k.2 := by
  simp only [groupRows, List.mem_filter, Bool.and_eq_true, decide_eq_true_eq]

theorem mem_overlapTargets_player_ne (L : List Shift) (checked : List Int)
    (k : Int × Int) (s : Shift) (t : Nat × Shift)
    (ht : t ∈ overlapTargets L checked k s) : t.2.playerId ≠ k.1 := by
  rw [mem_overlapTargets_iff] at ht
  tauto

/-! Overlap engine: dict lemmas -/

theorem dictInsert_keys (d : List (Int × Int)) (pid v : Int) :
    (dictInsert d pid v).map Prod.fst =
      if pid ∈ d.map Prod.fst then d.map Prod.fst
      else d.map Prod.fst ++ [pid] := by
  unfold dictInsert
  have hany : (d.any fun kv => kv.1 == pid) = decide (pid ∈ d.map Prod.fst) := by
    induction d with
    | nil => rfl
    | cons kv tl ih =>
      simp only [List.any_cons, ih, List.map_cons, List.mem_cons]
      cases h : (kv.1 == pid) with
      | true =>
        have hpk : pid = kv.1 := (beq_iff_eq.mp h).symm
        simp [hpk]
      | false =>
        have hpk : pid ≠ kv.1 := fun hEq => (beq_eq_false_iff_ne.mp h) hEq.symm
        simp [hpk]
  rw [hany]
  by_cases hmem : pid ∈ d.map Prod.fst
  · rw [if_pos (by simpa using hmem), if_pos hmem, List.map_map]
    refine List.map_congr_left fun kv _ => ?_
    by_cases hk : kv.1 = pid
    · simp [Function.comp, hk]
    · simp [Function.comp, hk]
  · rw [if_neg (by simpa using hmem), if_neg hmem, List.map_append]
    rfl

theorem mem_dictInsert_keys (d : List (Int × Int)) (pid v pid2 : Int) :
    pid2 ∈ (dictInsert d pid v).map Prod.fst ↔
      pid2 ∈ d.map Prod.fst ∨ pid2 = pid := by
  rw [dictInsert_keys]
  split_ifs with h
  · constructor
    · exact Or.inl
    · rintro (h2 | rfl)
      · exact h2
      · exact h
  · simp [List.mem_append]

theorem nodup_dictInsert_keys (d : List (Int × Int)) (pid v : Int)
    (hd : (d.map Prod.fst).Nodup) :
    ((dictInsert d pid v).map Prod.fst).Nodup := by
  rw [dictInsert_keys]
  split_ifs with h
  · exact hd
  · simp [List.nodup_append, hd, h]

theorem buildDict_keys (s : Shift) (ts : List (Nat × Shift)) :
    ∀ d d' : List (Int × Int), buildDict s ts d = some d' →
      (∀ pid : Int, pid ∈ d'.map Prod.fst ↔
        pid ∈ d.map Prod.fst ∨ pid ∈ ts.map fun t => t.2.playerId) ∧
      ((d.map Prod.fst).Nodup → (d'.map Prod.fst).Nodup) := by
  induction ts with
  | nil =>
    intro d d' h
    simp only [buildDict, Option.some.injEq] at h
    subst h
    exact ⟨fun pid => by simp, id⟩
  | cons t ts ih =>
    intro d d' h
    simp only [buildDict] at h
    cases hco : computeOverlap s t.2 with
    | none => rw [hco] at h; cases h
    | some v =>
      rw [hco] at h
      obtain ⟨hmem, hnd⟩ := ih (dictInsert d t.2.playerId v) d' h
      constructor
      · intro pid
        rw [hmem pid, mem_dictInsert_keys]
        simp only [List.map_cons, List.mem_cons]
        tauto
      · intro hd
        exact hnd (nodup_dictInsert_keys d t.2.playerId v hd)

/-! Claim theorems for the engine -/

/-- C1: the engine compares the zero-duration source shift [50, 50) of
player 1 with the partner shift [0, 100) of player 2 on the same team (the
time test of line 188 holds), and then raises IndexError on shift_range[0]
over the empty source range instead of recording the overlap 0: the whole
call fails and returns nothing. -/
theorem C1_degenerate_source_crashes :
    get_overlapping_shifts [⟨1, 1, 10, 50, 50⟩, ⟨1, 2, 10, 0, 100⟩] 1 =
      none := by decide

/-- C2: for nondegenerate half-open shifts the engine time test is
equivalent to the canonical intersection test a0 < b1 and b0 < a1, is
symmetric under swapping the two shifts, and the computed overlap magnitude
of b against a equals that of a against b. -/
theorem C2_predicate_equivalence_and_symmetry (a b : Shift)
    (ha : a.startTime < a.endTime) (hb : b.startTime < b.endTime) :
    (overlapPredB a b = true ↔
      (a.startTime < b.endTime ∧ b.startTime < a.endTime)) ∧
    overlapPredB a b = overlapPredB b a ∧
    computeOverlap b a = computeOverlap a b := by
  refine ⟨?_, ?_, ?_⟩
  · simp only [overlapPredB, Bool.or_eq_true, Bool.and_eq_true,
      decide_eq_true_eq]
    omega
  · have h1 : (overlapPredB a b = true) ↔ (overlapPredB b a = true) := by
      simp only [overlapPredB, Bool.or_eq_true, Bool.and_eq_true,
        decide_eq_true_eq]
      omega
    cases hab : overlapPredB a b <;> cases hba : overlapPredB b a <;>
      simp_all
  · simp only [computeOverlap]
    rw [if_neg (by omega), if_neg (by omega), if_neg (by omega),
      if_neg (by omega)]
    simp only [Option.some.injEq]
    omega

/-- C2 witness: the concrete pair [0, 100) and [50, 150). -/
theorem C2_witness :
    (overlapPredB ⟨1, 1, 10, 0, 100⟩ ⟨1, 2, 10, 50, 150⟩ = true ↔
      ((⟨1, 1, 10, 0, 100⟩ : Shift).startTime <
          (⟨1, 2, 10, 50, 150⟩ : Shift).endTime ∧
        (⟨1, 2, 10, 50, 150⟩ : Shift).startTime <
          (⟨1, 1, 10, 0, 100⟩ : Shift).endTime)) ∧
    overlapPredB ⟨1, 1, 10, 0, 100⟩ ⟨1, 2, 10, 50, 150⟩ =
      overlapPredB ⟨1, 2, 10, 50, 150⟩ ⟨1, 1, 10, 0, 100⟩ ∧
    computeOverlap ⟨1, 2, 10, 50, 150⟩ ⟨1, 1, 10, 0, 100⟩ =
      computeOverlap ⟨1, 1, 10, 0, 100⟩ ⟨1, 2, 10, 50, 150⟩ :=
  C2_predicate_equivalence_and_symmetry ⟨1, 1, 10, 0, 100⟩ ⟨1, 2, 10, 50, 150⟩
    (by decide) (by decide)

/-- C6 counterexample: one source shift of player 1 overlaps two distinct
shifts of player 2, yet the engine emits a single record for the pair,
holding the seconds of the overlapping shift computed last, instead of one
record per overlapping partner shift. -/
theorem C6_counterexample :
    get_overlapping_shifts
        [⟨1, 1, 10, 0, 1200⟩, ⟨1, 2, 10, 0, 100⟩, ⟨1, 2, 10, 200, 350⟩] 1 =
      some [⟨1, 1, 2, 150⟩] := by decide

/-- C6 amended: the per-shift dict is keyed by the partner playerId, so per
source shift the engine emits exactly one record per overlapping partner
player: the dict keys are distinct, and a player is a key exactly when one
of its shifts passed the overlap filter against this source shift.  A
source shift overlapping several shifts of one partner collapses to a
single record whose value comes from the shift iterated last. -/
theorem C6_per_partner_granularity (L : List Shift) (checked : List Int)
    (k : Int × Int) (s : Shift) (d : List (Int × Int)) (pid : Int)
    (hd : shiftOverlapDict L checked k s = some d) :
    (d.map Prod.fst).Nodup ∧
      (pid ∈ d.map Prod.fst ↔
        pid ∈ (overlapTargets L checked k s).map fun t => t.2.playerId) := by
  obtain ⟨hmem, hnd⟩ :=
    buildDict_keys s (overlapTargets L checked k s) [] d hd
  refine ⟨hnd (by simp), ?_⟩
  simpa using hmem pid

/-- C6 witness: the dict of the source shift [0, 1200) of player 1 against
the two overlapping shifts of player 2. -/
theorem C6_witness :
    (([(2, 150)] : List (Int × Int)).map Prod.fst).Nodup ∧
      ((2 : Int) ∈ ([(2, 150)] : List (Int × Int)).map Prod.fst ↔
        (2 : Int) ∈ (overlapTargets
          [⟨1, 1, 10, 0, 1200⟩, ⟨1, 2, 10, 0, 100⟩, ⟨1, 2, 10, 200, 350⟩]
          [] (1, 10) ⟨1, 1, 10, 0, 1200⟩).map fun t => t.2.playerId) :=
  C6_per_partner_granularity
    [⟨1, 1, 10, 0, 1200⟩, ⟨1, 2, 10, 0, 100⟩, ⟨1, 2, 10, 200, 350⟩]
    [] (1, 10) ⟨1, 1, 10, 0, 1200⟩ [(2, 150)] 2 (by decide)

/-- C9 counterexample: an input holding shifts of two different games is
not rejected: the engine returns the overlap records of the requested game
and ignores the rest. -/
theorem C9_counterexample :
    get_overlapping_shifts
        [⟨1, 1, 10, 0, 100⟩, ⟨1, 2, 10, 50, 150⟩, ⟨2, 3, 20, 0, 100⟩] 1 =
      some [⟨1, 1, 2, 50⟩] := by decide

/-- C9 amended: line 166 restricts the input to the rows of the requested
gameId, so the engine silently computes on the single-game subset and never
mixes games; multi-game input is not a hard failure. -/
theorem C9_restricts_to_requested_game (df : List Shift) (g : Int) :
    get_overlapping_shifts df g =
      get_overlapping_shifts (df.filter fun s => decide (s.gameId = g)) g := by
  unfold get_overlapping_shifts
  rw [List.filter_filter]
  simp

/-! C10: no self pairs -/

theorem keyRecordsAux_player_ne (L : List Shift) (checked : List Int)
    (k : Int × Int) :
    ∀ (srcs : List (Nat × Shift)) (out : List OverlapRec),
      (∀ src ∈ srcs, src.2.playerId = k.1) →
      keyRecordsAux L checked k srcs = some out →
      ∀ r ∈ out, r.playerId = k.1 ∧ r.playerId2 ≠ k.1 := by
  intro srcs
  induction srcs with
  | nil =>
    intro out _ h r hr
    simp only [keyRecordsAux, Option.some.injEq] at h
    subst h
    cases hr
  | cons src rest ih =>
    intro out hsrc h r hr
    simp only [keyRecordsAux] at h
    cases hd : shiftOverlapDict L checked k src.2 with
    | none => rw [hd] at h; cases h
    | some d =>
      cases hrest : keyRecordsAux L checked k rest with
      | none => rw [hd, hrest] at h; cases h
      | some rs =>
        rw [hd, hrest] at h
        simp only [Option.some.injEq] at h
        subst h
        rcases List.mem_append.mp hr with hmem | hmem
        · obtain ⟨kv, hkv, rfl⟩ := List.mem_map.mp hmem
          refine ⟨hsrc src (by simp), ?_⟩
          have hkey : kv.1 ∈ d.map Prod.fst := List.mem_map_of_mem Prod.fst hkv
          unfold shiftOverlapDict at hd
          have hiff := (buildDict_keys src.2 _ [] d hd).1 kv.1
          rw [hiff] at hkey
          rcases hkey with hkey | hkey
          · simp at hkey
          · obtain ⟨t, htmem, hteq⟩ := List.mem_map.mp hkey
            have hne := mem_overlapTargets_player_ne L checked k src.2 t htmem
            show kv.1 ≠ k.1
            rw [← hteq]
            exact hne
        · exact ih rs (fun src' h' => hsrc src' (List.mem_cons_of_mem _ h')) hrest r hmem

theorem recordsAux_no_self (L : List Shift) :
    ∀ (keys : List (Int × Int)) (checked : List Int) (out : List OverlapRec),
      recordsAux L keys checked = some out →
      ∀ r ∈ out, r.playerId2 ≠ r.playerId := by
  intro keys
  induction keys with
  | nil =>
    intro checked out h r hr
    simp only [recordsAux, Option.some.injEq] at h
    subst h
    cases hr
  | cons k ks ih =>
    intro checked out h r hr
    simp only [recordsAux] at h
    cases hnow : keyRecords L checked k with
    | none => rw [hnow] at h; cases h
    | some now =>
      cases hrest : recordsAux L ks (checked ++ [k.1]) with
      | none => rw [hnow, hrest] at h; cases h
      | some rest =>
        rw [hnow, hrest] at h
        simp only [Option.some.injEq] at h
        subst h
        rcases List.mem_append.mp hr with hmem | hmem
        · have hsrc : ∀ src ∈ groupRows L k, src.2.playerId = k.1 :=
            fun src hs => ((mem_groupRows_iff L k src).mp hs).2.1
          have hprop := keyRecordsAux_player_ne L checked k (groupRows L k)
            now hsrc hnow r hmem
          intro hEq
          exact hprop.2 (hEq ▸ hprop.1)
        · exact ih _ rest hrest r hmem

/-- C10: every emitted overlap record pairs two distinct players: line 179
drops the rows of the source group before comparing, and the same-team
filter removes any remaining row of the same player, so playerId2 never
equals playerId. -/
theorem C10_no_self_pairs (df : List Shift) (g : Int)
    (recs : List OverlapRec) (r : OverlapRec)
    (hrun : get_overlapping_shifts df g = some recs) (hmem : r ∈ recs) :
    r.playerId2 ≠ r.playerId := by
  unfold get_overlapping_shifts at hrun
  exact recordsAux_no_self _ _ _ _ hrun r hmem

/-- C10 witness: a concrete two-player game. -/
theorem C10_witness :
    (⟨1, 1, 2, 50⟩ : OverlapRec).playerId2 ≠
      (⟨1, 1, 2, 50⟩ : OverlapRec).playerId :=
  C10_no_self_pairs [⟨1, 1, 10, 0, 100⟩, ⟨1, 2, 10, 50, 150⟩] 1
    [⟨1, 1, 2, 50⟩] ⟨1, 1, 2, 50⟩ (by decide) (by simp)

/-! C3: exactly-once comparison of overlapping same-team shift pairs -/

theorem mem_indexedRows_iff (L : List Shift) (x : Nat) (s : Shift) :
    (x, s) ∈ indexedRows L ↔ ∃ h : x < L.length, L.get ⟨x, h⟩ = s := by
  unfold indexedRows
  rw [List.mk_mem_enum_iff_getElem?, List.getElem?_eq_some_iff]
  constructor
  · rintro ⟨h, hEq⟩
    exact ⟨h, hEq⟩
  · rintro ⟨h, hEq⟩
    exact ⟨h, hEq⟩

theorem snd_eq_of_mem_indexedRows (L : List Shift) (x : Nat) (s : Shift)
    (hmem : (x, s) ∈ indexedRows L) (hx : x < L.length) :
    s = L.get ⟨x, hx⟩ := by
  obtain ⟨h', hget⟩ := (mem_indexedRows_iff L x s).mp hmem
  exact hget.symm

theorem pairwise_fst_ne_indexedRows (L : List Shift) :
    (indexedRows L).Pairwise fun r r' => r.1 ≠ r'.1 := by
  have h : (List.map Prod.fst (indexedRows L)).Nodup := by
    unfold indexedRows
    rw [List.enum_map_fst]
    exact List.nodup_range _
  unfold List.Nodup at h
  rw [List.pairwise_map] at h
  exact h

theorem overlapTargets_sublist (L : List Shift) (checked : List Int)
    (k : Int × Int) (s : Shift) :
    (overlapTargets L checked k s).Sublist (indexedRows L) :=
  (List.filter_sublist _).trans (List.filter_sublist _)

theorem nodup_keyComparedPairs (L : List Shift) (checked : List Int)
    (k : Int × Int) : (keyComparedPairs L checked k).Nodup := by
  unfold keyComparedPairs
  rw [List.nodup_flatMap]
  constructor
  · intro src _
    have hpt : (overlapTargets L checked k src.2).Pairwise
        fun r r' => r.1 ≠ r'.1 :=
      List.Pairwise.sublist (overlapTargets_sublist L checked k src.2)
        (pairwise_fst_ne_indexedRows L)
    unfold List.Nodup
    rw [List.pairwise_map]
    exact hpt.imp fun hne hEq => hne (congrArg Prod.snd hEq)
  · have hg : (groupRows L k).Pairwise fun r r' => r.1 ≠ r'.1 :=
      List.Pairwise.sublist (List.filter_sublist _)
        (pairwise_fst_ne_indexedRows L)
    refine hg.imp ?_
    intro a b hne
    intro pr hpra hprb
    obtain ⟨t, _, heqa⟩ := List.mem_map.mp hpra
    obtain ⟨t', _, heqb⟩ := List.mem_map.mp hprb
    exact hne ((congrArg Prod.fst heqa).trans (congrArg Prod.fst heqb).symm)

theorem mem_keyComparedPairs_intro (L : List Shift) (checked : List Int)
    (k : Int × Int) (x y : Nat) (hx : x < L.length) (hy : y < L.length)
    (hxk : keyOf (L.get ⟨x, hx⟩) = k)
    (hyk : keyOf (L.get ⟨y, hy⟩) ≠ k)
    (hyc : (L.get ⟨y, hy⟩).playerId ∉ checked)
    (hyt : (L.get ⟨y, hy⟩).teamId = k.2)
    (hpred : overlapPredB (L.get ⟨x, hx⟩) (L.get ⟨y, hy⟩) = true) :
    (x, y) ∈ keyComparedPairs L checked k := by
  unfold keyComparedPairs
  rw [List.mem_flatMap]
  refine ⟨(x, L.get ⟨x, hx⟩), ?_, ?_⟩
  · rw [mem_groupRows_iff]
    exact ⟨(mem_indexedRows_iff L x _).mpr ⟨hx, rfl⟩,
      congrArg Prod.fst hxk, congrArg Prod.snd hxk⟩
  · rw [List.mem_map]
    refine ⟨(y, L.get ⟨y, hy⟩), ?_, rfl⟩
    rw [mem_overlapTargets_iff]
    refine ⟨(mem_indexedRows_iff L y _).mpr ⟨hy, rfl⟩, ?_, hyc, hyt, hpred⟩
    rintro ⟨h1, h2⟩
    exact hyk (Prod.ext_iff.mpr ⟨h1, h2⟩)

theorem not_mem_keyComparedPairs_fst (L : List Shift) (checked : List Int)
    (k : Int × Int) (x y : Nat) (hx : x < L.length)
    (hxk : keyOf (L.get ⟨x, hx⟩) ≠ k) :
    (x, y) ∉ keyComparedPairs L checked k := by
  unfold keyComparedPairs
  rw [List.mem_flatMap]
  rintro ⟨⟨sx, ss⟩, hsrc, hpair⟩
  obtain ⟨t, _, heq⟩ := List.mem_map.mp hpair
  have hsx : sx = x := congrArg Prod.fst heq
  subst hsx
  rw [mem_groupRows_iff] at hsrc
  obtain ⟨hrow, h1, h2⟩ := hsrc
  have hss : ss = L.get ⟨sx, hx⟩ := snd_eq_of_mem_indexedRows L sx ss hrow hx
  subst hss
  exact hxk (Prod.ext_iff.mpr ⟨h1, h2⟩)

theorem not_mem_keyComparedPairs_checked (L : List Shift) (checked : List Int)
    (k : Int × Int) (x y : Nat) (hy : y < L.length)
    (hc : (L.get ⟨y, hy⟩).playerId ∈ checked) :
    (x, y) ∉ keyComparedPairs L checked k := by
  unfold keyComparedPairs
  rw [List.mem_flatMap]
  rintro ⟨src, _, hpair⟩
  obtain ⟨⟨ty, ts⟩, htmem, heq⟩ := List.mem_map.mp hpair
  have hty : ty = y := congrArg Prod.snd heq
  subst hty
  rw [mem_overlapTargets_iff] at htmem
  obtain ⟨hrow, _, hnc, _, _⟩ := htmem
  have hts : ts = L.get ⟨ty, hy⟩ := snd_eq_of_mem_indexedRows L ty ts hrow hy
  subst hts
  exact hnc hc

theorem snd_mem_of_mem_indexedRows (L : List Shift) (r : Nat × Shift)
    (h : r ∈ indexedRows L) : r.2 ∈ L := by
  obtain ⟨hx, hget⟩ := (mem_indexedRows_iff L r.1 r.2).mp h
  exact hget ▸ List.get_mem L r.1 hx

/-- For a nondegenerate source shift the overlap value is always computed
and equals the claimed formula max(0, min(a1, b1) - max(a0, b0)). -/
theorem computeOverlap_eq_formula (a b : Shift)
    (ha : a.startTime < a.endTime) :
    computeOverlap a b =
      some (max 0 (min a.endTime b.endTime - max a.startTime b.startTime)) := by
  unfold computeOverlap
  split_ifs with h1 h2
  · have : min a.endTime b.endTime - max a.startTime b.startTime ≤ 0 := by
      omega
    rw [max_eq_left this]
  · omega
  · have : min (a.endTime - 1) (b.endTime - 1) + 1 =
        min a.endTime b.endTime := by omega
    rw [this]

theorem buildDict_ne_none (s : Shift) (hs : s.startTime < s.endTime) :
    ∀ (ts : List (Nat × Shift)) (d : List (Int × Int)),
      buildDict s ts d ≠ none := by
  intro ts
  induction ts with
  | nil => intro d h; cases h
  | cons t ts ih =>
    intro d
    simp only [buildDict]
    rw [computeOverlap_eq_formula s t.2 hs]
    exact ih _

theorem keyRecordsAux_ne_none (L : List Shift) (checked : List Int)
    (k : Int × Int) :
    ∀ srcs : List (Nat × Shift),
      (∀ src ∈ srcs, src.2.startTime < src.2.endTime) →
      keyRecordsAux L checked k srcs ≠ none := by
  intro srcs
  induction srcs with
  | nil => intro _ h; cases h
  | cons src rest ih =>
    intro hnd
    simp only [keyRecordsAux]
    cases hd : shiftOverlapDict L checked k src.2 with
    | none =>
      unfold shiftOverlapDict at hd
      exact absurd hd (buildDict_ne_none src.2 (hnd src (by simp)) _ _)
    | some d =>
      cases hrest : keyRecordsAux L checked k rest with
      | none => exact absurd hrest (ih fun s' h' => hnd s' (by simp [h']))
      | some rs => simp

theorem recordsAux_ne_none (L : List Shift)
    (hL : ∀ s ∈ L, s.startTime < s.endTime) :
    ∀ (keys : List (Int × Int)) (checked : List Int),
      recordsAux L keys checked ≠ none := by
  intro keys
  induction keys with
  | nil => intro checked h; cases h
  | cons k ks ih =>
    intro checked
    simp only [recordsAux]
    cases hnow : keyRecords L checked k with
    | none =>
      refine absurd hnow ?_
      unfold keyRecords
      apply keyRecordsAux_ne_none
      intro src hsrc
      exact hL src.2 (snd_mem_of_mem_indexedRows L src
        ((mem_groupRows_iff L k src).mp hsrc).1)
    | some now =>
      cases hrest : recordsAux L ks (checked ++ [k.1]) with
      | none => exact absurd hrest (ih _)
      | some rest => simp

/-- With every shift nondegenerate the engine never hits the IndexError of
computeOverlap: the run is total, so the comparison trace below lists
exactly the overlap computations the Python loop performs. -/
theorem engine_total_of_nondegenerate (df : List Shift) (g : Int)
    (hnd : ∀ s ∈ df, s.startTime < s.endTime) :
    get_overlapping_shifts df g ≠ none := by
  unfold get_overlapping_shifts
  exact recordsAux_ne_none _ (fun s hs => hnd s (List.mem_of_mem_filter hs)) _ _

theorem count_eq_one_of_nodup_mem {α : Type} [BEq α] [LawfulBEq α]
    {l : List α} {a : α} (hn : l.Nodup) (ha : a ∈ l) : l.count a = 1 := by
  induction l with
  | nil => cases ha
  | cons b tl ih =>
    rw [List.count_cons]
    rcases List.mem_cons.mp ha with rfl | hmem
    · rw [List.count_eq_zero.mpr (List.nodup_cons.mp hn).1]
      simp
    · rw [ih (List.nodup_cons.mp hn).2 hmem]
      have hne : b ≠ a := fun hEq => (List.nodup_cons.mp hn).1 (hEq ▸ hmem)
      simp [hne]

theorem count_keyComparedPairs_one (L : List Shift) (checked : List Int)
    (k : Int × Int) (x y : Nat) (hx : x < L.length) (hy : y < L.length)
    (hxk : keyOf (L.get ⟨x, hx⟩) = k) (hyk : keyOf (L.get ⟨y, hy⟩) ≠ k)
    (hyc : (L.get ⟨y, hy⟩).playerId ∉ checked)
    (hyt : (L.get ⟨y, hy⟩).teamId = k.2)
    (hpred : overlapPredB (L.get ⟨x, hx⟩) (L.get ⟨y, hy⟩) = true) :
    (keyComparedPairs L checked k).count (x, y) = 1 :=
  count_eq_one_of_nodup_mem (nodup_keyComparedPairs L checked k)
    (mem_keyComparedPairs_intro L checked k x y hx hy hxk hyk hyc hyt hpred)

theorem count_comparedPairsAux_zero_src (L : List Shift) (x y : Nat)
    (hx : x < L.length) :
    ∀ (keys : List (Int × Int)) (checked : List Int),
      (∀ k ∈ keys, keyOf (L.get ⟨x, hx⟩) ≠ k) →
      (comparedPairsAux L keys checked).count (x, y) = 0 := by
  intro keys
  induction keys with
  | nil => intro checked _; rfl
  | cons k ks ih =>
    intro checked hk
    simp only [comparedPairsAux]
    rw [List.count_append,
      List.count_eq_zero.mpr
        (not_mem_keyComparedPairs_fst L checked k x y hx (hk k (by simp))),
      ih (checked ++ [k.1]) fun k' h' => hk k' (by simp [h'])]

theorem count_comparedPairsAux_zero_checked (L : List Shift) (x y : Nat)
    (hy : y < L.length) :
    ∀ (keys : List (Int × Int)) (checked : List Int),
      (L.get ⟨y, hy⟩).playerId ∈ checked →
      (comparedPairsAux L keys checked).count (x, y) = 0 := by
  intro keys
  induction keys with
  | nil => intro checked _; rfl
  | cons k ks ih =>
    intro checked hc
    simp only [comparedPairsAux]
    rw [List.count_append,
      List.count_eq_zero.mpr
        (not_mem_keyComparedPairs_checked L checked k x y hy hc),
      ih (checked ++ [k.1]) (List.mem_append_left _ hc)]

theorem count_comparedPairsAux_pair (L : List Shift) (i j : Nat)
    (hi : i < L.length) (hj : j < L.length)
    (hp : (L.get ⟨i, hi⟩).playerId ≠ (L.get ⟨j, hj⟩).playerId)
    (ht : (L.get ⟨i, hi⟩).teamId = (L.get ⟨j, hj⟩).teamId)
    (hov1 : (L.get ⟨i, hi⟩).startTime < (L.get ⟨j, hj⟩).endTime)
    (hov2 : (L.get ⟨j, hj⟩).startTime < (L.get ⟨i, hi⟩).endTime) :
    ∀ (keys : List (Int × Int)) (checked : List Int),
      keys.Nodup →
      keyOf (L.get ⟨i, hi⟩) ∈ keys → keyOf (L.get ⟨j, hj⟩) ∈ keys →
      (L.get ⟨i, hi⟩).playerId ∉ checked →
      (L.get ⟨j, hj⟩).playerId ∉ checked →
      (∀ k ∈ keys, k.1 = (L.get ⟨i, hi⟩).playerId →
        k = keyOf (L.get ⟨i, hi⟩)) →
      (∀ k ∈ keys, k.1 = (L.get ⟨j, hj⟩).playerId →
        k = keyOf (L.get ⟨j, hj⟩)) →
      (comparedPairsAux L keys checked).count (i, j) +
        (comparedPairsAux L keys checked).count (j, i) = 1 := by
  have hkeyne : keyOf (L.get ⟨j, hj⟩) ≠ keyOf (L.get ⟨i, hi⟩) :=
    fun hEq => hp (congrArg Prod.fst hEq).symm
  have hkeyne' : keyOf (L.get ⟨i, hi⟩) ≠ keyOf (L.get ⟨j, hj⟩) :=
    fun hEq => hkeyne hEq.symm
  have hpredij : overlapPredB (L.get ⟨i, hi⟩) (L.get ⟨j, hj⟩) = true := by
    simp only [overlapPredB, Bool.or_eq_true, Bool.and_eq_true,
      decide_eq_true_eq]
    omega
  have hpredji : overlapPredB (L.get ⟨j, hj⟩) (L.get ⟨i, hi⟩) = true := by
    simp only [overlapPredB, Bool.or_eq_true, Bool.and_eq_true,
      decide_eq_true_eq]
    omega
  intro keys
  induction keys with
  | nil => intro checked _ hki _ _ _ _ _; cases hki
  | cons k ks ih =>
    intro checked hnd hki hkj hci hcj hpi hpj
    obtain ⟨hknot, hndks⟩ := List.nodup_cons.mp hnd
    simp only [comparedPairsAux]
    rw [List.count_append, List.count_append]
    by_cases hk1 : k = keyOf (L.get ⟨i, hi⟩)
    · subst hk1
      have e1 : (keyComparedPairs L checked (keyOf (L.get ⟨i, hi⟩))).count
          (i, j) = 1 :=
        count_keyComparedPairs_one L checked _ i j hi hj rfl hkeyne hcj
          ht.symm hpredij
      have e2 : (keyComparedPairs L checked (keyOf (L.get ⟨i, hi⟩))).count
          (j, i) = 0 :=
        List.count_eq_zero.mpr
          (not_mem_keyComparedPairs_fst L checked _ j i hj hkeyne)
      have e3 : (comparedPairsAux L ks
          (checked ++ [(keyOf (L.get ⟨i, hi⟩)).1])).count (i, j) = 0 :=
        count_comparedPairsAux_zero_src L i j hi ks _
          fun k' hk' hEq => hknot (hEq ▸ hk')
      have e4 : (comparedPairsAux L ks
          (checked ++ [(keyOf (L.get ⟨i, hi⟩)).1])).count (j, i) = 0 :=
        count_comparedPairsAux_zero_checked L j i hi ks _
          (List.mem_append_right _ (by simp [keyOf]))
      omega
    · by_cases hk2 : k = keyOf (L.get ⟨j, hj⟩)
      · subst hk2
        have e1 : (keyComparedPairs L checked (keyOf (L.get ⟨j, hj⟩))).count
            (i, j) = 0 :=
          List.count_eq_zero.mpr
            (not_mem_keyComparedPairs_fst L checked _ i j hi hkeyne')
        have e2 : (keyComparedPairs L checked (keyOf (L.get ⟨j, hj⟩))).count
            (j, i) = 1 :=
          count_keyComparedPairs_one L checked _ j i hj hi rfl hkeyne' hci
            ht hpredji
        have e3 : (comparedPairsAux L ks
            (checked ++ [(keyOf (L.get ⟨j, hj⟩)).1])).count (j, i) = 0 :=
          count_comparedPairsAux_zero_src L j i hj ks _
            fun k' hk' hEq => hknot (hEq ▸ hk')
        have e4 : (comparedPairsAux L ks
            (checked ++ [(keyOf (L.get ⟨j, hj⟩)).1])).count (i, j) = 0 :=
          count_comparedPairsAux_zero_checked L i j hj ks _
            (List.mem_append_right _ (by simp [keyOf]))
        omega
      · have hkine : keyOf (L.get ⟨i, hi⟩) ≠ k := fun hEq => hk1 hEq.symm
        have hkjne : keyOf (L.get ⟨j, hj⟩) ≠ k := fun hEq => hk2 hEq.symm
        have e1 : (keyComparedPairs L checked k).count (i, j) = 0 :=
          List.count_eq_zero.mpr
            (not_mem_keyComparedPairs_fst L checked k i j hi hkine)
        have e2 : (keyComparedPairs L checked k).count (j, i) = 0 :=
          List.count_eq_zero.mpr
            (not_mem_keyComparedPairs_fst L checked k j i hj hkjne)
        have hki' : keyOf (L.get ⟨i, hi⟩) ∈ ks := by
          rcases List.mem_cons.mp hki with hEq | h
          · exact absurd hEq.symm hk1
          · exact h
        have hkj' : keyOf (L.get ⟨j, hj⟩) ∈ ks := by
          rcases List.mem_cons.mp hkj with hEq | h
          · exact absurd hEq.symm hk2
          · exact h
        have hci' : (L.get ⟨i, hi⟩).playerId ∉ checked ++ [k.1] := by
          intro hmem
          rcases List.mem_append.mp hmem with h | h
          · exact hci h
          · have hfst : k.1 = (L.get ⟨i, hi⟩).playerId :=
              (List.mem_singleton.mp h).symm
            exact hk1 (hpi k (by simp) hfst)
        have hcj' : (L.get ⟨j, hj⟩).playerId ∉ checked ++ [k.1] := by
          intro hmem
          rcases List.mem_append.mp hmem with h | h
          · exact hcj h
          · have hfst : k.1 = (L.get ⟨j, hj⟩).playerId :=
              (List.mem_singleton.mp h).symm
            exact hk2 (hpj k (by simp) hfst)
        have e34 := ih (checked ++ [k.1]) hndks hki' hkj' hci' hcj'
          (fun k' h' => hpi k' (List.mem_cons_of_mem _ h'))
          (fun k' h' => hpj k' (List.mem_cons_of_mem _ h'))
        omega

/-- C3: on a single-game shift table in which each player has one team and
every shift is nondegenerate (by engine_total_of_nondegenerate the run is
then crash free, so the comparison trace lists exactly the overlap
computations performed), every
pair of overlapping shift instances of two distinct same-team players is
computed exactly once: once player groups earlier in the processing order
are fully handled, they are excluded as targets, so the pair is attributed
only to the processing-order side. -/
theorem C3_pair_compared_exactly_once (df : List Shift) (g : Int) (i j : Nat)
    (hi : i < df.length) (hj : j < df.length)
    (hg : ∀ s ∈ df, s.gameId = g)
    (hone : ∀ a ∈ df, ∀ b ∈ df, a.playerId = b.playerId →
      a.teamId = b.teamId)
    (_hndg : ∀ s ∈ df, s.startTime < s.endTime)
    (hp : (df.get ⟨i, hi⟩).playerId ≠ (df.get ⟨j, hj⟩).playerId)
    (ht : (df.get ⟨i, hi⟩).teamId = (df.get ⟨j, hj⟩).teamId)
    (hov1 : (df.get ⟨i, hi⟩).startTime < (df.get ⟨j, hj⟩).endTime)
    (hov2 : (df.get ⟨j, hj⟩).startTime < (df.get ⟨i, hi⟩).endTime) :
    (comparedPairs df g).count (i, j) + (comparedPairs df g).count (j, i) =
      1 := by
  have hfilter : df.filter (fun s => decide (s.gameId = g)) = df :=
    List.filter_eq_self.mpr fun a ha => by simp [hg a ha]
  have hnodup : (gameKeys df).Nodup :=
    ((List.perm_insertionSort keyLe _).nodup_iff).mpr (List.nodup_dedup _)
  have hmemkeys : ∀ s ∈ df, keyOf s ∈ gameKeys df := by
    intro s hs
    unfold gameKeys
    rw [(List.perm_insertionSort keyLe _).mem_iff, List.mem_dedup]
    exact List.mem_map.mpr ⟨s, hs, rfl⟩
  have hplayers : ∀ s0 ∈ df, ∀ k ∈ gameKeys df,
      k.1 = s0.playerId → k = keyOf s0 := by
    intro s0 hs0 k hk hfst
    unfold gameKeys at hk
    rw [(List.perm_insertionSort keyLe _).mem_iff, List.mem_dedup] at hk
    obtain ⟨s, hs, rfl⟩ := List.mem_map.mp hk
    have hpl : s.playerId = s0.playerId := hfst
    have hteam : s.teamId = s0.teamId := hone s hs s0 hs0 hpl
    unfold keyOf
    rw [hpl, hteam]
  unfold comparedPairs
  rw [hfilter]
  exact count_comparedPairsAux_pair df i j hi hj hp ht hov1 hov2
    (gameKeys df) [] hnodup
    (hmemkeys _ (List.get_mem df i hi)) (hmemkeys _ (List.get_mem df j hj))
    (by simp) (by simp)
    (hplayers _ (List.get_mem df i hi)) (hplayers _ (List.get_mem df j hj))

/-- C3 witness: a two-player game with one overlapping shift pair. -/
theorem C3_witness :
    (comparedPairs [⟨1, 1, 10, 0, 100⟩, ⟨1, 2, 10, 50, 150⟩] 1).count (0, 1) +
      (comparedPairs [⟨1, 1, 10, 0, 100⟩, ⟨1, 2, 10, 50, 150⟩] 1).count
        (1, 0) = 1 :=
  C3_pair_compared_exactly_once
    [⟨1, 1, 10, 0, 100⟩, ⟨1, 2, 10, 50, 150⟩] 1 0 1 (by decide) (by decide)
    (by decide) (by decide) (by decide) (by decide) (by decide) (by decide)
    (by decide)

end HockeyApi
